import Mathlib

/-!
Verification of the TConnectSync connector metrics core
(`src/Connectors/Nocturne.Connectors.TConnectSync/main.py`).

The embedding models wall-clock instants (values of `datetime.now(...)`,
whose only uses are ordering and the arithmetic `now - 24*3600`) as
integers.  The timestamps handed to `record_entry` are kept as a type
parameter `T`, because the tracker only ever applies the Python `>`
comparison to them; the aggregator-level theorems instantiate `T` with the
integer timeline, and the interception-hook theorems instantiate `T` with
the parsed-datetime type.
-/

namespace Nocturne

/-- State of `MetricsTracker`: `total_entries`, `last_entry_time`,
`last_sync_time`, and the `_entries_buffer` list of arrival instants. -/
structure MetricsTracker (T : Type) where
  total_entries : Nat
  last_entry_time : Option T
  last_sync_time : Option Int
  entries_buffer : List Int
deriving Repr, DecidableEq

/-- `MetricsTracker.__init__`: all counters zero, everything else empty. -/
def MetricsTracker.init (T : Type) : MetricsTracker T :=
  { total_entries := 0
    last_entry_time := none
    last_sync_time := none
    entries_buffer := [] }

/-- `MetricsTracker.record_entry(timestamp)`, with the wall clock passed
explicitly as `now` and the Python `>` on timestamps passed as `gt`.
Increments `total_entries` and sets `last_sync_time`; when a timestamp is
present it replaces `last_entry_time` if larger (or previously unset) and
appends the arrival instant `now` to the buffer. -/
def record_entry {T : Type} (gt : T → T → Bool) (st : MetricsTracker T)
    (timestamp : Option T) (now : Int) : MetricsTracker T :=
  let st1 := { st with
    total_entries := st.total_entries + 1
    last_sync_time := some now }
  match timestamp with
  | none => st1
  | some ts =>
      { st1 with
        last_entry_time :=
          match st1.last_entry_time with
          | none => some ts
          | some l => if gt ts l then some ts else some l
        entries_buffer := st1.entries_buffer ++ [now] }

/-- The dictionary returned by `MetricsTracker.get_metrics`. -/
structure Metrics (T : Type) where
  totalEntries : Nat
  lastEntryTime : Option T
  entriesLast24Hours : Nat
  lastSyncTime : Option Int
deriving Repr, DecidableEq

/-- `MetricsTracker.get_metrics()`, with the wall clock passed explicitly
as `now`.  Keeps exactly the buffer entries with `t > now - 24*3600` (this
mutation persists) and returns the metrics dictionary together with the
updated state. -/
def get_metrics {T : Type} (st : MetricsTracker T) (now : Int) :
    Metrics T × MetricsTracker T :=
  let cutoff : Int := now - 24 * 3600
  let buf := st.entries_buffer.filter (fun t => cutoff < t)
  ( { totalEntries := st.total_entries
      lastEntryTime := st.last_entry_time
      entriesLast24Hours := buf.length
      lastSyncTime := st.last_sync_time }
  , { st with entries_buffer := buf } )

/-! ### Trace semantics at the aggregator level

Timestamps are instantiated with the integer timeline and `gt` with the
integer order; a trace is the sequence of `record_entry` and `get_metrics`
calls, each carrying the wall-clock instant at which it ran. -/

/-- Python `>` on the integer timeline. -/
def timeGT (a b : Int) : Bool := decide (b < a)

/-- One observable operation on the tracker: a `record_entry` call (with
its optional parsed timestamp and its wall-clock instant) or a
`get_metrics` call (with its wall-clock instant). -/
inductive Op where
  | record (timestamp : Option Int) (now : Int)
  | snapshot (now : Int)
deriving Repr, DecidableEq

/-- State transition of one operation. -/
def step (st : MetricsTracker Int) : Op → MetricsTracker Int
  | .record ts now => record_entry timeGT st ts now
  | .snapshot now => (get_metrics st now).2

/-- Run a sequence of operations from state `st`. -/
def runFrom (st : MetricsTracker Int) (ops : List Op) : MetricsTracker Int :=
  ops.foldl step st

/-- Run a sequence of operations from the initial state. -/
def run (ops : List Op) : MetricsTracker Int :=
  runFrom (MetricsTracker.init Int) ops

/-- Whether an operation is a `record_entry` call. -/
def Op.isRecord : Op → Bool
  | .record _ _ => true
  | .snapshot _ => false

/-- Number of `record_entry` calls in a trace. -/
def countRecords (ops : List Op) : Nat :=
  (ops.filter Op.isRecord).length

/-- The wall-clock instant of an operation. -/
def Op.time : Op → Int
  | .record _ now => now
  | .snapshot now => now

/-- Arrival instants of the timed `record_entry` calls of a trace, in
order: exactly the instants ever appended to `_entries_buffer`. -/
def arrivals : List Op → List Int
  | [] => []
  | .record (some _) now :: ops => now :: arrivals ops
  | .record none _ :: ops => arrivals ops
  | .snapshot _ :: ops => arrivals ops

/-- Timestamps of the timed `record_entry` calls of a trace, in order. -/
def timedStamps : List Op → List Int
  | [] => []
  | .record (some ts) _ :: ops => ts :: timedStamps ops
  | .record none _ :: ops => timedStamps ops
  | .snapshot _ :: ops => timedStamps ops

/-- Specification-side window count, following the claim text for the
24-hour window: timed record calls whose arrival instant is within 24
hours of the snapshot instant, the boundary included. -/
def specWindowCount (ops : List Op) (s : Int) : Nat :=
  ((arrivals ops).filter (fun t => s - 24 * 3600 ≤ t)).length

/-- The update `record_entry` applies to `last_entry_time` on the integer
timeline: replace the accumulator when the new timestamp is larger. -/
def maxStep (acc : Option Int) (t : Int) : Option Int :=
  match acc with
  | none => some t
  | some l => if timeGT t l then some t else some l

/-- Fold of `maxStep` over a timestamp list: the value `last_entry_time`
reaches after seeing those timestamps in order. -/
def foldMax (acc : Option Int) : List Int → Option Int
  | [] => acc
  | t :: ts => foldMax (maxStep acc t) ts

/-- The body returned by the `/health/data` route. -/
structure HealthData (T : Type) where
  connectorName : String
  status : String
  metrics : Metrics T
  recentEntries : List Int
  syncIntervalMinutes : Nat
  connectSource : String
deriving Repr, DecidableEq

/-- The `/health/data` handler `health_data`: takes a tracker snapshot and
merges it with the static configuration; `recentEntries` is always the
empty list. -/
def health_data {T : Type} (st : MetricsTracker T) (now : Int) :
    HealthData T × MetricsTracker T :=
  let p := get_metrics st now
  ( { connectorName := "Tandem Connector"
      status := "running"
      metrics := p.1
      recentEntries := []
      syncIntervalMinutes := 1
      connectSource := "TConnectSync (Python)" }
  , p.2 )

/-! ### The interception hook

`patched_upload_entry` reads `ns_format["created_at"]`, rewrites `Z` via
`str.replace`, parses with `datetime.fromisoformat`, records the event,
and delegates to the original `upload_entry` inside a fail-soft boundary.
Strings are modelled as `List Char`. -/

/-- A parsed `datetime` as `datetime.fromisoformat` produces it; the
offset is in seconds, `none` meaning a naive datetime. -/
structure PyDatetime where
  year : Nat
  month : Nat
  day : Nat
  hour : Nat
  minute : Nat
  second : Nat
  utcoffset : Option Int
deriving Repr, DecidableEq

/-- Numeric value of a decimal digit character. -/
def digitVal (c : Char) : Nat := c.toNat - 48

/-- Parse exactly two decimal digits. -/
def parse2 : List Char → Option (Nat × List Char)
  | a :: b :: rest =>
      if a.isDigit && b.isDigit then
        some (digitVal a * 10 + digitVal b, rest)
      else none
  | _ => none

/-- Parse exactly four decimal digits. -/
def parse4 : List Char → Option (Nat × List Char)
  | a :: b :: c :: d :: rest =>
      if a.isDigit && b.isDigit && c.isDigit && d.isDigit then
        some (((digitVal a * 10 + digitVal b) * 10 + digitVal c) * 10
                + digitVal d, rest)
      else none
  | _ => none

/-- Consume one expected character. -/
def expectChar (c : Char) : List Char → Option (List Char)
  | x :: rest => if x = c then some rest else none
  | [] => none

/-- Gregorian leap year test. -/
def isLeap (y : Nat) : Bool :=
  (y % 4 == 0 && y % 100 != 0) || y % 400 == 0

/-- Days in a month of the proleptic Gregorian calendar. -/
def daysInMonth (y m : Nat) : Nat :=
  if m == 2 then (if isLeap y then 29 else 28)
  else if m == 4 || m == 6 || m == 9 || m == 11 then 30
  else 31

/-- Parse a time of day `HH[:MM[:SS]]`, returning hour, minute, second and
the remaining characters. -/
def parseHMS (cs : List Char) : Option (Nat × Nat × Nat × List Char) := do
  let (h, cs1) ← parse2 cs
  match cs1 with
  | ':' :: cs2 => do
      let (m, cs3) ← parse2 cs2
      match cs3 with
      | ':' :: cs4 => do
          let (s, cs5) ← parse2 cs4
          pure (h, m, s, cs5)
      | _ => pure (h, m, 0, cs3)
  | _ => pure (h, 0, 0, cs1)

/-- Parse a UTC offset tail `HH:MM[:SS]` after a sign, requiring the
string to end there, and return the signed offset in seconds. -/
def parseOffsetTail (sign : Int) (cs : List Char) : Option Int := do
  let (oh, cs1) ← parse2 cs
  let cs2 ← expectChar ':' cs1
  let (om, cs3) ← parse2 cs2
  match cs3 with
  | [] =>
      if oh < 24 && om < 60 then some (sign * (oh * 3600 + om * 60))
      else none
  | ':' :: cs4 => do
      let (os, cs5) ← parse2 cs4
      if cs5.isEmpty && oh < 24 && om < 60 && os < 60 then
        some (sign * (oh * 3600 + om * 60 + os))
      else none
  | _ => none

/-- Modelled from the spec: the Interception Hook "parses it as ISO-8601"
with Python `datetime.fromisoformat`, which is standard-library code not
part of this repository.  The model accepts
`YYYY-MM-DD[<sep>HH[:MM[:SS]][{+|-}HH:MM[:SS]]]` with a calendar-valid
date, in-range time fields and any single separator character, returning
`none` where Python raises `ValueError`; fractional seconds are left out
of the model. -/
def fromisoformat (cs : List Char) : Option PyDatetime := do
  let (y, cs1) ← parse4 cs
  let cs2 ← expectChar '-' cs1
  let (mo, cs3) ← parse2 cs2
  let cs4 ← expectChar '-' cs3
  let (d, cs5) ← parse2 cs4
  if 1 ≤ mo && mo ≤ 12 && 1 ≤ d && d ≤ daysInMonth y mo then
    match cs5 with
    | [] => pure ⟨y, mo, d, 0, 0, 0, none⟩
    | _sep :: rest => do
        let (h, mi, s, cs6) ← parseHMS rest
        if h < 24 && mi < 60 && s < 60 then
          match cs6 with
          | [] => pure ⟨y, mo, d, h, mi, s, none⟩
          | '+' :: cs7 => do
              let off ← parseOffsetTail 1 cs7
              pure ⟨y, mo, d, h, mi, s, some off⟩
          | '-' :: cs7 => do
              let off ← parseOffsetTail (-1) cs7
              pure ⟨y, mo, d, h, mi, s, some off⟩
          | _ => none
        else none
  else none

/-- The replacement text `+00:00`. -/
def plusZeroOffset : List Char := ['+', '0', '0', ':', '0', '0']

/-- The hook transformation (line 70), Python
`ns_format["created_at"].replace("Z", "+00:00")`.  Python `str.replace`
substitutes **every** occurrence of the character `Z`. -/
def replaceAllZ : List Char → List Char
  | [] => []
  | c :: rest => (if c = 'Z' then plusZeroOffset else [c]) ++ replaceAllZ rest

/-- Rewriting only a **trailing** literal `Z` to `+00:00`, the
transformation as the specification text words it. -/
def replaceTrailingZ : List Char → List Char
  | [] => []
  | [c] => if c = 'Z' then plusZeroOffset else [c]
  | c :: rest => c :: replaceTrailingZ rest

/-- The Python value found at `ns_format["created_at"]` as the hook can
see it: the key may be absent, hold a string, or hold a non-string
value. -/
inductive CreatedAt where
  | absent
  | str (s : List Char)
  | nonString
deriving Repr, DecidableEq

/-- A Python exception class, as far as the hook distinguishes them. -/
inductive PyError where
  | valueError
  | attributeError
deriving Repr, DecidableEq

/-- Lines 64–71: the value bound to `entry_time` after the inner
try/except, or the exception escaping those lines.  On a non-string value
the attribute access `.replace` raises `AttributeError`, which the inner
`except ValueError` does not catch; a parse failure raises `ValueError`,
is caught, and leaves `entry_time = None` (here: `fromisoformat` returning
`none`). -/
def extractEntryTime : CreatedAt → Except PyError (Option PyDatetime)
  | .absent => .ok none
  | .str s => .ok (fromisoformat (replaceAllZ s))
  | .nonString => .error .attributeError

/-- Lines 63–74, the body of the outer `try`: extraction followed by
`metrics.record_entry(entry_time)`.  If extraction raises, `record_entry`
is never reached and the error carries the tracker state at the raise
point (unchanged). -/
def trackStep (gt : PyDatetime → PyDatetime → Bool)
    (st : MetricsTracker PyDatetime) (c : CreatedAt) (now : Int) :
    Except (PyError × MetricsTracker PyDatetime) (MetricsTracker PyDatetime) :=
  match extractEntryTime c with
  | .ok t => .ok (record_entry gt st t now)
  | .error e => .error (e, st)

/-- The `except Exception` boundary of the hook: a raised exception is
swallowed (and logged) and execution continues with the state reached at
the raise point. -/
def failSoft {σ : Type} (out : Except (PyError × σ) σ) : σ :=
  match out with
  | .ok s => s
  | .error es => es.2

/-- The tracker state after the hook's try/except block. -/
def hookState (gt : PyDatetime → PyDatetime → Bool)
    (st : MetricsTracker PyDatetime) (c : CreatedAt) (now : Int) :
    MetricsTracker PyDatetime :=
  failSoft (trackStep gt st c now)

/-- The fail-soft boundary composed with unconditional delegation: whatever
outcome the guarded block produced, return the delegated call's result. -/
def patchedWith {σ β : Type} (out : Except (PyError × σ) σ) (res : β) :
    σ × β :=
  (failSoft out, res)

/-- `patched_upload_entry` (lines 62–76): run the guarded
extraction-and-recording step, then delegate to the original
`upload_entry` on the same `ns_format` and `entity` arguments and return
its result.  `orig` is the original bound method. -/
def patched_upload_entry {β : Type} (gt : PyDatetime → PyDatetime → Bool)
    (orig : CreatedAt → String → β) (st : MetricsTracker PyDatetime)
    (c : CreatedAt) (entity : String) (now : Int) :
    MetricsTracker PyDatetime × β :=
  patchedWith (trackStep gt st c now) (orig c entity)

/-! ### Basic step lemmas -/

theorem record_entry_total {T : Type} (gt : T → T → Bool)
    (st : MetricsTracker T) (ts : Option T) (now : Int) :
    (record_entry gt st ts now).total_entries = st.total_entries + 1 := by
  cases ts <;> rfl

theorem get_metrics_total {T : Type} (st : MetricsTracker T) (now : Int) :
    (get_metrics st now).2.total_entries = st.total_entries := rfl

theorem step_total_mono (st : MetricsTracker Int) (op : Op) :
    st.total_entries ≤ (step st op).total_entries := by
  cases op with
  | record ts now =>
      rw [step, record_entry_total]
      exact Nat.le_succ _
  | snapshot now => exact Nat.le_refl _

theorem countRecords_nil : countRecords [] = 0 := rfl

theorem countRecords_cons_record (ts : Option Int) (now : Int) (ops : List Op) :
    countRecords (.record ts now :: ops) = countRecords ops + 1 := by
  simp [countRecords, List.filter_cons, Op.isRecord, Nat.add_comm]

theorem countRecords_cons_snapshot (now : Int) (ops : List Op) :
    countRecords (.snapshot now :: ops) = countRecords ops := by
  simp [countRecords, List.filter_cons, Op.isRecord]

theorem runFrom_total (ops : List Op) :
    ∀ st : MetricsTracker Int,
      (runFrom st ops).total_entries = st.total_entries + countRecords ops := by
  induction ops with
  | nil => intro st; simp [runFrom, countRecords_nil]
  | cons op ops ih =>
      intro st
      show (runFrom (step st op) ops).total_entries = _
      rw [ih (step st op)]
      cases op with
      | record ts now =>
          rw [countRecords_cons_record]
          show (record_entry timeGT st ts now).total_entries + countRecords ops = _
          rw [record_entry_total]
          omega
      | snapshot now =>
          rw [countRecords_cons_snapshot]
          rfl

theorem runFrom_buffer_le (ops : List Op) :
    ∀ st : MetricsTracker Int,
      (runFrom st ops).entries_buffer.length
        ≤ st.entries_buffer.length + countRecords ops := by
  induction ops with
  | nil =>
      intro st
      simp [runFrom, countRecords_nil]
  | cons op ops ih =>
      intro st
      show (runFrom (step st op) ops).entries_buffer.length ≤ _
      refine le_trans (ih (step st op)) ?_
      cases op with
      | record ts now =>
          rw [countRecords_cons_record]
          cases ts with
          | none =>
              show st.entries_buffer.length + countRecords ops ≤ _
              omega
          | some t =>
              show (st.entries_buffer ++ [now]).length + countRecords ops ≤ _
              rw [List.length_append]
              simp
              omega
      | snapshot now =>
          rw [countRecords_cons_snapshot]
          have : (step st (.snapshot now)).entries_buffer.length
              ≤ st.entries_buffer.length := by
            simpa [step, get_metrics] using
              List.length_filter_le _ st.entries_buffer
          omega

theorem run_snapshots_only (ops : List Op) (h : countRecords ops = 0) :
    run ops = MetricsTracker.init Int := by
  rw [run]
  induction ops with
  | nil => rfl
  | cons op ops ih =>
      cases op with
      | record ts now =>
          rw [countRecords_cons_record] at h
          omega
      | snapshot now =>
          rw [countRecords_cons_snapshot] at h
          show runFrom (step (MetricsTracker.init Int) (.snapshot now)) ops = _
          have hstep : step (MetricsTracker.init Int) (.snapshot now)
              = MetricsTracker.init Int := rfl
          rw [hstep]
          exact ih h

theorem filter_cutoff_mono (u s : Int) (hus : u ≤ s) (l : List Int) :
    (l.filter (fun t => u - 24 * 3600 < t)).filter
        (fun t => s - 24 * 3600 < t)
      = l.filter (fun t => s - 24 * 3600 < t) := by
  rw [List.filter_filter]
  apply List.filter_congr
  intro a _
  show (decide (s - 24 * 3600 < a) && decide (u - 24 * 3600 < a))
      = decide (s - 24 * 3600 < a)
  by_cases hp : s - 24 * 3600 < a
  · have hq : u - 24 * 3600 < a := by omega
    rw [decide_eq_true hp, decide_eq_true hq, Bool.and_self]
  · rw [decide_eq_false hp, Bool.false_and]

theorem filter_runFrom_buffer (s : Int) (ops : List Op) :
    ∀ st : MetricsTracker Int,
      (∀ op ∈ ops, op.time ≤ s) →
      (runFrom st ops).entries_buffer.filter (fun t => s - 24 * 3600 < t)
        = (st.entries_buffer ++ arrivals ops).filter
            (fun t => s - 24 * 3600 < t) := by
  induction ops with
  | nil =>
      intro st h
      simp [runFrom, arrivals]
  | cons op ops ih =>
      intro st h
      have hop : op.time ≤ s := h op (List.mem_cons_self op ops)
      have htail : ∀ o ∈ ops, o.time ≤ s :=
        fun o ho => h o (List.mem_cons_of_mem _ ho)
      show (runFrom (step st op) ops).entries_buffer.filter _ = _
      rw [ih (step st op) htail]
      cases op with
      | record ts now =>
          cases ts with
          | none => simp [step, record_entry, arrivals]
          | some t =>
              show ((st.entries_buffer ++ [now]) ++ arrivals ops).filter _
                  = (st.entries_buffer ++ now :: arrivals ops).filter _
              rw [List.append_assoc]
              rfl
      | snapshot now =>
          show (((st.entries_buffer.filter fun t => now - 24 * 3600 < t)
                  ++ arrivals ops).filter fun t => s - 24 * 3600 < t)
              = (st.entries_buffer ++ arrivals ops).filter
                  (fun t => s - 24 * 3600 < t)
          rw [List.filter_append, List.filter_append,
            filter_cutoff_mono now s hop st.entries_buffer]

theorem record_entry_last_maxStep (st : MetricsTracker Int)
    (ts : Int) (now : Int) :
    (record_entry timeGT st (some ts) now).last_entry_time
      = maxStep st.last_entry_time ts := by
  cases hl : st.last_entry_time with
  | none => simp [record_entry, maxStep, hl]
  | some l => simp [record_entry, maxStep, hl]

theorem runFrom_last (ops : List Op) :
    ∀ st : MetricsTracker Int,
      (runFrom st ops).last_entry_time
        = foldMax st.last_entry_time (timedStamps ops) := by
  induction ops with
  | nil => intro st; rfl
  | cons op ops ih =>
      intro st
      show (runFrom (step st op) ops).last_entry_time = _
      rw [ih (step st op)]
      cases op with
      | record ts now =>
          cases ts with
          | none => rfl
          | some t =>
              show foldMax (record_entry timeGT st (some t) now).last_entry_time
                    (timedStamps ops)
                  = foldMax (maxStep st.last_entry_time t) (timedStamps ops)
              rw [record_entry_last_maxStep]
      | snapshot now => rfl

theorem maxStep_spec (acc : Option Int) (t : Int) :
    ∃ v, maxStep acc t = some v ∧ t ≤ v
      ∧ (∀ y, acc = some y → y ≤ v) ∧ (v = t ∨ acc = some v) := by
  cases acc with
  | none =>
      refine ⟨t, rfl, le_refl t, ?_, Or.inl rfl⟩
      intro y hy
      exact Option.noConfusion hy
  | some l =>
      by_cases hlt : l < t
      · refine ⟨t, ?_, le_refl t, ?_, Or.inl rfl⟩
        · simp [maxStep, timeGT, hlt]
        · intro y hy
          cases hy
          omega
      · refine ⟨l, ?_, ?_, ?_, Or.inr rfl⟩
        · simp [maxStep, timeGT, hlt]
        · omega
        · intro y hy
          cases hy
          exact le_refl l

theorem foldMax_spec (l : List Int) :
    ∀ (acc : Option Int) (m : Int),
      foldMax acc l = some m →
      (m ∈ l ∨ acc = some m)
      ∧ (∀ x ∈ l, x ≤ m)
      ∧ (∀ y, acc = some y → y ≤ m) := by
  induction l with
  | nil =>
      intro acc m h
      refine ⟨Or.inr h, by simp, fun y hy => ?_⟩
      rw [hy] at h
      cases h
      exact le_refl _
  | cons t ts ih =>
      intro acc m h
      obtain ⟨v, hv, htv, hyv, hvcase⟩ := maxStep_spec acc t
      have h2 : foldMax (some v) ts = some m := by
        rw [← hv]
        exact h
      obtain ⟨ih1, ih2, ih3⟩ := ih (some v) m h2
      have hvm : v ≤ m := ih3 v rfl
      refine ⟨?_, ?_, ?_⟩
      · rcases ih1 with hm | hm
        · exact Or.inl (List.mem_cons_of_mem t hm)
        · cases hm
          rcases hvcase with hvt | hacc
          · exact Or.inl (hvt ▸ List.mem_cons_self t ts)
          · exact Or.inr hacc
      · intro x hx
        rcases List.mem_cons.1 hx with hxt | hxts
        · cases hxt
          exact le_trans htv hvm
        · exact ih2 x hxts
      · intro y hy
        exact le_trans (hyv y hy) hvm

theorem foldMax_isSome (l : List Int) :
    ∀ acc : Option Int, acc.isSome → (foldMax acc l).isSome := by
  induction l with
  | nil => intro acc h; exact h
  | cons t ts ih =>
      intro acc h
      show (foldMax (maxStep acc t) ts).isSome
      apply ih
      cases acc with
      | none => rfl
      | some l =>
          show (if timeGT t l then some t else some l).isSome = true
          by_cases hlt : timeGT t l <;> simp [hlt]

theorem notMem_buffer_runFrom (a : Int) (ops : List Op) :
    ∀ st : MetricsTracker Int,
      a ∉ st.entries_buffer →
      (∀ op ∈ ops, a < op.time) →
      a ∉ (runFrom st ops).entries_buffer := by
  induction ops with
  | nil => intro st hst _; exact hst
  | cons op ops ih =>
      intro st hst hops
      have hopt : a < op.time := hops op (List.mem_cons_self op ops)
      have htail : ∀ o ∈ ops, a < o.time :=
        fun o ho => hops o (List.mem_cons_of_mem _ ho)
      show a ∉ (runFrom (step st op) ops).entries_buffer
      apply ih (step st op) ?_ htail
      cases op with
      | record ts now =>
          cases ts with
          | none => exact hst
          | some t =>
              show a ∉ st.entries_buffer ++ [now]
              intro hmem
              rcases List.mem_append.1 hmem with hmem | hmem
              · exact hst hmem
              · rw [List.mem_singleton] at hmem
                rw [hmem] at hopt
                exact absurd hopt (by simp [Op.time])
      | snapshot now =>
          show a ∉ st.entries_buffer.filter _
          intro hmem
          exact hst (List.mem_of_mem_filter hmem)

theorem replaceAllZ_trailing_agree :
    ∀ s : List Char, 'Z' ∉ s.dropLast →
      replaceAllZ s = replaceTrailingZ s := by
  intro s
  induction s with
  | nil => intro _; rfl
  | cons c rest ih =>
      intro h
      cases rest with
      | nil =>
          show (if c = 'Z' then plusZeroOffset else [c]) ++ replaceAllZ []
              = replaceTrailingZ [c]
          by_cases hc : c = 'Z' <;> simp [replaceAllZ, replaceTrailingZ, hc]
      | cons d rest2 =>
          rw [List.dropLast_cons₂] at h
          have hc : c ≠ 'Z' := by
            intro hc
            exact h (hc ▸ List.mem_cons_self c _)
          have hrest : 'Z' ∉ (d :: rest2).dropLast :=
            fun hmem => h (List.mem_cons_of_mem c hmem)
          show (if c = 'Z' then plusZeroOffset else [c])
                ++ replaceAllZ (d :: rest2)
              = c :: replaceTrailingZ (d :: rest2)
          rw [if_neg hc, ih hrest]
          rfl

/-! ### Claim theorems -/

/-- C1: for every trace, the `totalEntries` of the next snapshot equals
the number of `record_entry` calls observed; each `record_entry` call
increments `total_entries` by exactly one, and no operation (record or
snapshot) ever decreases it. -/
theorem C1_total_entries_counts_records :
    (∀ (ops : List Op) (now : Int),
        (get_metrics (run ops) now).1.totalEntries = countRecords ops)
    ∧ (∀ (T : Type) (gt : T → T → Bool) (st : MetricsTracker T)
          (ts : Option T) (now : Int),
        (record_entry gt st ts now).total_entries = st.total_entries + 1)
    ∧ (∀ (st : MetricsTracker Int) (op : Op),
        st.total_entries ≤ (step st op).total_entries) := by
  refine ⟨?_, fun T => record_entry_total, step_total_mono⟩
  intro ops now
  show (run ops).total_entries = _
  rw [run, runFrom_total]
  simp [MetricsTracker.init]

/-- C2 counterexample: with one timed record at instant 0 and a snapshot
at instant 86400, the arrival is exactly 24 hours old — within 24 hours of
the snapshot on the claim's inclusive reading (`specWindowCount` = 1) —
yet `get_metrics` prunes it and reports an `entriesLast24Hours` of 0. -/
theorem C2_boundary_counterexample :
    (run [Op.record (some 5) 0]).entries_buffer = [0]
    ∧ specWindowCount [Op.record (some 5) 0] 86400 = 1
    ∧ (get_metrics (run [Op.record (some 5) 0]) 86400).1.entriesLast24Hours = 0
    ∧ (get_metrics (run [Op.record (some 5) 0]) 86400).2.entries_buffer = [] := by
  decide

/-- C2 amended: `get_metrics` keeps exactly the buffer entries whose
arrival instant is **strictly** newer than 24 hours before the snapshot
instant — an entry exactly 24 hours old is pruned — and, provided no
operation in the trace ran later than the snapshot, the returned
`entriesLast24Hours` equals the number of record calls that carried a
parsed timestamp and whose arrival instant is strictly within 24 hours of
the snapshot instant. -/
theorem C2_window_strict_cutoff (ops : List Op) (s : Int)
    (h : ∀ op ∈ ops, op.time ≤ s) :
    (get_metrics (run ops) s).1.entriesLast24Hours
        = ((arrivals ops).filter (fun t => s - 24 * 3600 < t)).length
    ∧ (get_metrics (run ops) s).2.entries_buffer
        = (run ops).entries_buffer.filter (fun t => s - 24 * 3600 < t) := by
  constructor
  · show ((run ops).entries_buffer.filter _).length = _
    rw [run, filter_runFrom_buffer s ops (MetricsTracker.init Int) h]
    rfl
  · rfl

/-- C2 witness: a timed record at instant 0 is still counted by a snapshot
at instant 86000 (age below 24 hours). -/
theorem C2_window_strict_cutoff_witness :
    (get_metrics (run [Op.record (some 5) 0]) 86000).1.entriesLast24Hours = 1 := by
  have h :=
    (C2_window_strict_cutoff [Op.record (some 5) 0] 86000 (by decide)).1
  rw [h]
  decide

/-- C5: after any trace, `last_entry_time` is the running maximum of the
timestamps of the timed record calls (`foldMax`), it is `null` exactly
when no timed record call occurred, any value it holds is the greatest
timestamp passed so far, and a `record_entry` call never moves it to a
smaller value. -/
theorem C5_last_entry_time_is_max (ops : List Op) :
    (run ops).last_entry_time = foldMax none (timedStamps ops)
    ∧ (timedStamps ops = [] ↔ (run ops).last_entry_time = none)
    ∧ (∀ m, (run ops).last_entry_time = some m →
          m ∈ timedStamps ops ∧ ∀ x ∈ timedStamps ops, x ≤ m)
    ∧ (∀ (st : MetricsTracker Int) (ts : Option Int) (now l : Int),
          st.last_entry_time = some l →
          ∃ r, (record_entry timeGT st ts now).last_entry_time = some r
            ∧ l ≤ r) := by
  have hrun : (run ops).last_entry_time = foldMax none (timedStamps ops) := by
    rw [run, runFrom_last]
    rfl
  refine ⟨hrun, ⟨?_, ?_⟩, ?_, ?_⟩
  · intro h
    rw [hrun, h]
    rfl
  · intro h
    cases hts : timedStamps ops with
    | nil => rfl
    | cons t rest =>
        rw [hrun, hts] at h
        have : (foldMax (some t) rest).isSome :=
          foldMax_isSome rest (some t) rfl
        rw [show foldMax none (t :: rest) = foldMax (some t) rest from rfl]
          at h
        rw [h] at this
        exact Bool.noConfusion this
  · intro m hm
    rw [hrun] at hm
    obtain ⟨h1, h2, _⟩ := foldMax_spec (timedStamps ops) none m hm
    refine ⟨?_, h2⟩
    rcases h1 with h1 | h1
    · exact h1
    · exact Option.noConfusion h1
  · intro st ts now l hl
    cases ts with
    | none =>
        refine ⟨l, ?_, le_refl l⟩
        show st.last_entry_time = some l
        exact hl
    | some t =>
        rw [record_entry_last_maxStep]
        rw [hl]
        by_cases hlt : l < t
        · exact ⟨t, by simp [maxStep, timeGT, hlt], le_of_lt hlt⟩
        · exact ⟨l, by simp [maxStep, timeGT, hlt], le_refl l⟩

/-- C5 witness: in a concrete trace with timed records 3 and 7 the value
reported as the last entry time, 7, is indeed among the recorded
timestamps. -/
theorem C5_last_entry_time_is_max_witness :
    (7 : Int) ∈ timedStamps
      [Op.record (some 3) 0, Op.record none 1, Op.record (some 7) 2] :=
  ((C5_last_entry_time_is_max
      [Op.record (some 3) 0, Op.record none 1, Op.record (some 7) 2]).2.2.1
    7 (by decide)).1

/-- C6: once a `get_metrics` call runs more than 24 hours after a timed
entry's arrival instant, that arrival is pruned from the buffer and — as
long as no later operation runs before that snapshot's instant — it stays
out of the buffer forever, so no later snapshot can count it again. -/
theorem C6_aged_entry_never_returns (ops1 ops2 : List Op) (s a : Int)
    (hs : a + 24 * 3600 < s)
    (h2 : ∀ op ∈ ops2, s ≤ op.time) :
    a ∉ (run (ops1 ++ Op.snapshot s :: ops2)).entries_buffer := by
  rw [run, runFrom, List.foldl_append, List.foldl_cons]
  apply notMem_buffer_runFrom
  · show a ∉ (List.foldl step (MetricsTracker.init Int) ops1).entries_buffer.filter _
    intro hmem
    have hpred := List.of_mem_filter hmem
    have : s - 24 * 3600 < a := of_decide_eq_true hpred
    omega
  · intro op hop
    have := h2 op hop
    omega

/-- C6 witness: the arrival at instant 0 is pruned by the snapshot at
instant 86401 and is still absent after a later record call. -/
theorem C6_aged_entry_never_returns_witness :
    (0 : Int) ∉ (run ([Op.record (some 1) 0]
        ++ Op.snapshot 86401 :: [Op.record (some 2) 90000])).entries_buffer :=
  C6_aged_entry_never_returns [Op.record (some 1) 0]
    [Op.record (some 2) 90000] 86401 0 (by decide) (by decide)

/-- C9: in every reachable tracker state the window buffer length, and
hence the `entriesLast24Hours` of any snapshot, is at most
`total_entries`; a `record_entry` call adds at most one buffer entry while
always incrementing the counter, and `get_metrics` only removes buffer
entries. -/
theorem C9_window_at_most_total :
    (∀ ops : List Op,
        (run ops).entries_buffer.length ≤ (run ops).total_entries)
    ∧ (∀ (ops : List Op) (now : Int),
        (get_metrics (run ops) now).1.entriesLast24Hours
          ≤ (run ops).total_entries)
    ∧ (∀ (T : Type) (gt : T → T → Bool) (st : MetricsTracker T)
          (ts : Option T) (now : Int),
        (record_entry gt st ts now).entries_buffer.length
            ≤ st.entries_buffer.length + 1
          ∧ (record_entry gt st ts now).total_entries
            = st.total_entries + 1)
    ∧ (∀ (T : Type) (st : MetricsTracker T) (now : Int),
        (get_metrics st now).2.entries_buffer.length
          ≤ st.entries_buffer.length) := by
  have hbuf : ∀ ops : List Op,
      (run ops).entries_buffer.length ≤ (run ops).total_entries := by
    intro ops
    have h1 := runFrom_buffer_le ops (MetricsTracker.init Int)
    have h2 := runFrom_total ops (MetricsTracker.init Int)
    rw [run]
    rw [h2]
    simpa [MetricsTracker.init] using h1
  refine ⟨hbuf, ?_, ?_, ?_⟩
  · intro ops now
    have : (get_metrics (run ops) now).1.entriesLast24Hours
        ≤ (run ops).entries_buffer.length := by
      simpa [get_metrics] using
        List.length_filter_le _ (run ops).entries_buffer
    exact le_trans this (hbuf ops)
  · intro T gt st ts now
    refine ⟨?_, record_entry_total gt st ts now⟩
    cases ts with
    | none => simp [record_entry]
    | some t => simp [record_entry]
  · intro T st now
    simpa [get_metrics] using List.length_filter_le _ st.entries_buffer

/-- C10: `get_metrics` changes neither `total_entries` nor
`last_entry_time` nor `last_sync_time`; its only mutation is to the
window buffer, and the buffer it keeps is a subsequence of the buffer
present before the call. -/
theorem C10_snapshot_frame (T : Type) (st : MetricsTracker T) (now : Int) :
    (get_metrics st now).2.total_entries = st.total_entries
    ∧ (get_metrics st now).2.last_entry_time = st.last_entry_time
    ∧ (get_metrics st now).2.last_sync_time = st.last_sync_time
    ∧ (get_metrics st now).2.entries_buffer.Sublist st.entries_buffer :=
  ⟨rfl, rfl, rfl, List.filter_sublist st.entries_buffer⟩

/-- C3: the interception hook delegates to the original push operation on
the same arguments and returns its value unchanged, for every outcome of
the guarded extraction-and-recording step — including any exception it
raises — and `patched_upload_entry` is exactly this fail-soft boundary
applied to its own recording step. -/
theorem C3_delegation_unconditional :
    (∀ (σ β : Type) (out : Except (PyError × σ) σ) (res : β),
        (patchedWith out res).2 = res)
    ∧ (∀ (β : Type) (gt : PyDatetime → PyDatetime → Bool)
          (orig : CreatedAt → String → β) (st : MetricsTracker PyDatetime)
          (c : CreatedAt) (entity : String) (now : Int),
        (patched_upload_entry gt orig st c entity now).2 = orig c entity
        ∧ patched_upload_entry gt orig st c entity now
            = patchedWith (trackStep gt st c now) (orig c entity)) :=
  ⟨fun _ _ _ _ => rfl, fun _ _ _ _ _ _ _ => ⟨rfl, rfl⟩⟩

/-- C4 counterexample: a non-string `created_at` makes `.replace` raise
`AttributeError`, which the inner `except ValueError` does not catch; the
outer boundary swallows it **before** `record_entry` runs, so the event is
not recorded and `total_entries` stays 0 instead of rising to 1. -/
theorem C4_nonstring_skips_recording :
    hookState (fun _ _ => false) (MetricsTracker.init PyDatetime)
        CreatedAt.nonString 0
      = MetricsTracker.init PyDatetime
    ∧ (hookState (fun _ _ => false) (MetricsTracker.init PyDatetime)
        CreatedAt.nonString 0).total_entries = 0
    ∧ ¬ (hookState (fun _ _ => false) (MetricsTracker.init PyDatetime)
        CreatedAt.nonString 0).total_entries
          = (MetricsTracker.init PyDatetime).total_entries + 1 :=
  ⟨rfl, rfl, by decide⟩

/-- C4 amended: when `created_at` is absent or holds a string (parseable
or not), the hook invokes `record_entry` exactly once — with the parsed
timestamp on success and with none otherwise — so the event increments
`total_entries`, and an untimed event leaves `last_entry_time` and the
window buffer unchanged; a non-string `created_at`, however, raises before
`record_entry` and leaves the tracker untouched. -/
theorem C4_recording_per_created_at (gt : PyDatetime → PyDatetime → Bool)
    (st : MetricsTracker PyDatetime) (now : Int) :
    hookState gt st CreatedAt.absent now = record_entry gt st none now
    ∧ (∀ s : List Char,
        hookState gt st (CreatedAt.str s) now
          = record_entry gt st (fromisoformat (replaceAllZ s)) now)
    ∧ hookState gt st CreatedAt.nonString now = st
    ∧ (∀ t : Option PyDatetime,
        (record_entry gt st t now).total_entries = st.total_entries + 1)
    ∧ (record_entry gt st none now).last_entry_time = st.last_entry_time
    ∧ (record_entry gt st none now).entries_buffer = st.entries_buffer :=
  ⟨rfl, fun _ => rfl, rfl, fun t => record_entry_total gt st t now, rfl, rfl⟩

/-- C7 counterexample: on the string `2020-01-01T00:00:00Z:00` the code's
replace-every-Z transformation yields the parseable
`2020-01-01T00:00:00+00:00:00` (a UTC offset with a seconds field), while
rewriting only a trailing `Z` leaves the string unparsable; so the hook's
extraction differs from ISO-8601 parsing with only the trailing `Z`
rewritten. -/
theorem C7_inner_z_counterexample :
    fromisoformat (replaceAllZ ("2020-01-01T00:00:00Z:00".toList))
      = some ⟨2020, 1, 1, 0, 0, 0, some 0⟩
    ∧ fromisoformat (replaceTrailingZ ("2020-01-01T00:00:00Z:00".toList))
      = none
    ∧ extractEntryTime (CreatedAt.str ("2020-01-01T00:00:00Z:00".toList))
      = Except.ok (some ⟨2020, 1, 1, 0, 0, 0, some 0⟩) :=
  ⟨rfl, rfl, rfl⟩

/-- C7 amended: the hook parses the string after rewriting **every**
literal `Z` to `+00:00`; whenever `Z` occurs at most as the final
character of the string, this coincides with rewriting only a trailing
`Z`. -/
theorem C7_replace_all_z_semantics (s : List Char) :
    extractEntryTime (CreatedAt.str s)
        = Except.ok (fromisoformat (replaceAllZ s))
    ∧ ('Z' ∉ s.dropLast →
        fromisoformat (replaceAllZ s)
          = fromisoformat (replaceTrailingZ s)) := by
  refine ⟨rfl, fun h => ?_⟩
  rw [replaceAllZ_trailing_agree s h]

/-- C7 witness: on a string whose only `Z` is trailing, the two
transformations parse identically. -/
theorem C7_replace_all_z_semantics_witness :
    fromisoformat (replaceAllZ ("2020-01-01T00:00:00Z".toList))
      = fromisoformat (replaceTrailingZ ("2020-01-01T00:00:00Z".toList)) :=
  (C7_replace_all_z_semantics ("2020-01-01T00:00:00Z".toList)).2 (by decide)

/-- C8: when no `record_entry` call has been observed since process start
(any number of snapshots may have run), the `/health/data` metrics are
`totalEntries = 0`, `lastEntryTime = null`, `entriesLast24Hours = 0`,
`lastSyncTime = null`; and in every state whatsoever the `recentEntries`
field is the empty list. -/
theorem C8_initial_health_data (ops : List Op) (h : countRecords ops = 0)
    (now : Int) :
    (health_data (run ops) now).1.metrics
      = { totalEntries := 0
          lastEntryTime := none
          entriesLast24Hours := 0
          lastSyncTime := none }
    ∧ ∀ (T : Type) (st : MetricsTracker T) (now2 : Int),
        (health_data st now2).1.recentEntries = [] := by
  refine ⟨?_, fun T st now2 => rfl⟩
  rw [run_snapshots_only ops h]
  rfl

/-- C8 witness: a concrete snapshot-only trace. -/
theorem C8_initial_health_data_witness :
    (health_data (run [Op.snapshot 5]) 10).1.metrics
      = { totalEntries := 0
          lastEntryTime := none
          entriesLast24Hours := 0
          lastSyncTime := none } :=
  (C8_initial_health_data [Op.snapshot 5] (by decide) 10).1

end Nocturne
